import Mathlib

/-!
Verification of the changelog-generating GitHub action
(`shakrmedia/changelog-generate-action`).

The repository consists of three near-identical action scripts:

* the first script in `src/main.ts` (here namespace `GitVariant`): resolves
  the commit range with local `git` subprocesses (`getExecOutput`) and prints
  the changelog;
* the second script in `src/main.ts` (here namespace `ReleaseVariant`):
  resolves the range through the GitHub REST API, updates the release body,
  and optionally marks Linear issues as done;
* the unnamed file `part_000` (here namespace `TagsVariant`): lists tags via
  the GitHub REST API and creates a release.

JavaScript values that may be `null`/`undefined` are embedded as `Option`;
JavaScript truthiness of nullable strings (where both `null`/`undefined` and
`""` are falsy) is the `truthy` predicate below.  Remote APIs and
subprocesses are opaque inputs: a paginated listing endpoint is a function
`Nat → List _` from page numbers to responses, a subprocess invocation is an
`ExecOutput` record.  `while` loops are embedded as fuel-indexed step
functions returning `none` exactly when the fuel is exhausted before the
loop exits.  Thrown exceptions are `Except.error`.
-/

/-- JavaScript truthiness of a nullable string: `null`/`undefined` and the
empty string are falsy, every other string is truthy. -/
def truthy : Option String → Bool
  | none => false
  | some s => s ≠ ""

/-- JavaScript `String.prototype.startsWith`, modelled on the character
list. -/
def jsStartsWith (s pat : String) : Bool :=
  pat.data.isPrefixOf s.data

/-- The JavaScript whitespace characters relevant to `String.prototype.trim`
for the strings this action handles (space, tab, newline, carriage
return). -/
def isSpaceJs (c : Char) : Bool :=
  c == ' ' || c == '\t' || c == '\n' || c == '\r'

/-- JavaScript `String.prototype.trim`. -/
def jsTrim (s : String) : String :=
  String.mk (((s.data.dropWhile isSpaceJs).reverse.dropWhile isSpaceJs).reverse)

/-- JavaScript `String.prototype.split('\n')`.  Note `''.split('\n')` is
`['']`, matching `List.splitOn` on the empty list. -/
def jsSplitNl (s : String) : List String :=
  (s.data.splitOn '\n').map String.mk

/-- JavaScript `String.prototype.replace(pat, repl)` with a string pattern:
replaces only the first occurrence. -/
def replaceFirst (s pat repl : String) : String :=
  match s.splitOn pat with
  | [] => s
  | [x] => x
  | x :: rest => x ++ repl ++ String.intercalate pat rest

/-- A commit message as parsed by `conventional-commits-parser`: the fields
the action reads, each nullable (`parser.Commit<string>` fields are
`string | null`). -/
structure Commit where
  type : Option String
  scope : Option String
  subject : Option String
  footer : Option String
deriving DecidableEq

/-- The intermediate record produced by `getMessage`:
`{type: string; text: string}`. -/
structure Message where
  type : String
  text : String
deriving DecidableEq

/-- The `support_types` constant, identical in all three scripts. -/
def support_types : List String := ["feat", "fix"]

/-- The `type_titles` lookup object, identical in all three scripts.  A
JavaScript object lookup returns `undefined` for absent keys, embedded as
`none`. -/
def type_titles (t : String) : Option String :=
  if t == "feat" then some "*Enhancements*"
  else if t == "fix" then some "*Bug Fixes*"
  else none

/-- The per-type message map `{[key: string]: string[]}`.  Only lookups are
ever performed on it (`getContent` reads `messages_with_type[type]` for the
two supported types), so a function embedding is faithful. -/
def MsgMap := String → Option (List String)

/-- The mutation `messages[type] = messages[type] || []; messages[type].push(text)`
inside the `reduce` of `getMessages` (all variants). -/
def insertMsg (m : MsgMap) (t txt : String) : MsgMap :=
  fun k => if k = t then some (((m t).getD []) ++ [txt]) else m k

/-- The `reduce` of `getMessages` (all variants): fold the surviving messages
into a per-type map, starting from the empty object `{}`. -/
def buildMap (l : List Message) : MsgMap :=
  l.foldl (fun m msg => insertMsg m msg.type msg.text) (fun _ => none)

/-- The `paragraph` helper, identical in all three scripts:
`list.length > 0 ? header + '\n' + list.join('\n') : ''`. -/
def paragraph (header : String) (list : List String) : String :=
  if list.length > 0 then header ++ "\n" ++ String.intercalate "\n" list else ""

/-- The `getTypeContent` helper, identical in all three scripts.  A lookup of
an unsupported type would interpolate as the string `"undefined"`; the only
call sites pass `"feat"` or `"fix"`. -/
def getTypeContent (t : String) (messages : List String) : String :=
  paragraph ((type_titles t).getD "undefined") messages

/-- The `getContent` renderer, identical in all three scripts: fold over
`support_types` in order, skipping a type exactly when its key is absent
from the map (an array value, even `[]`, is truthy in JavaScript), and
appending `content + '\n\n'` otherwise. -/
def getContent (messages_with_type : MsgMap) : String :=
  support_types.foldl
    (fun result t =>
      match messages_with_type t with
      | none => result
      | some msgs => result ++ (getTypeContent t msgs ++ "\n\n"))
    ""

/-- The subject capitalization
`subject.charAt(0).toUpperCase() + subject.substring(1)` used by every
`getMessage` variant.  `charAt(0).toUpperCase()` on a single character is
modelled by `Char.toUpper`. -/
def upperFirst (s : String) : String :=
  match s.data with
  | [] => ""
  | c :: cs => String.mk (c.toUpper :: cs)

/-- The scope test shared by every `getMessage` variant:
`scope === target_scope || (!scope && !target_scope)`.  Strict equality of a
nullable string with a string holds only when the former is present and
equal. -/
def scopeMatches (target_scope : String) (scope : Option String) : Bool :=
  (scope == some target_scope) || (!truthy scope && target_scope == "")

namespace GitVariant

/-- The `getMessage` of the first `src/main.ts` script (also `TagsVariant`,
whose `getMessage` is textually identical): no membership test of the type
against `support_types` here; the guard is
`type && subject && (scope === target_scope || (!scope && !target_scope))`. -/
def getMessage (target_scope : String) (c : Commit) : Option Message :=
  if truthy c.type && truthy c.subject && scopeMatches target_scope c.scope then
    some ⟨(c.type).getD "", upperFirst ((c.subject).getD "")⟩
  else none

/-- The footer filter of `getMessages`:
`!internal || !footer || !footer.startsWith('Internal-commit:')`. -/
def internalFilter (internal : Bool) (c : Commit) : Bool :=
  !internal || !truthy c.footer || !(jsStartsWith ((c.footer).getD "") "Internal-commit:")

/-- The filter/map/filter chain of `getMessages` before the final `reduce`:
keep commits passing the footer filter, apply `getMessage`, and keep
non-null results whose type is in `support_types`
(`!!message && support_types.includes(message.type)`). -/
def keptMessages (project : String) (internal : Bool) (commits : List Commit) :
    List Message :=
  ((commits.filter (internalFilter internal)).filterMap (getMessage project)).filter
    (fun msg => support_types.contains msg.type)

/-- The `getMessages` of the first `src/main.ts` script (also `TagsVariant`):
the chain above followed by the grouping `reduce`.  The optional `internal?`
parameter is `undefined` (falsy) at the primary-scope call site and `true`
at the dependent-scope call sites. -/
def getMessages (project : String) (commits : List Commit) (internal : Bool) :
    MsgMap :=
  buildMap (keptMessages project internal commits)

end GitVariant

namespace TagsVariant

/-- The `getMessage` of `part_000`, textually identical to
`GitVariant.getMessage`. -/
def getMessage : String → Commit → Option Message := GitVariant.getMessage

/-- The `getMessages` of `part_000`, textually identical to
`GitVariant.getMessages`. -/
def getMessages : String → List Commit → Bool → MsgMap := GitVariant.getMessages

end TagsVariant

namespace ReleaseVariant

/-- The `getMessage` of the second `src/main.ts` script.  Unlike the other
two variants, the guard additionally requires
`support_types.includes(type)`. -/
def getMessage (target_scope : String) (c : Commit) : Option Message :=
  if truthy c.type && support_types.contains ((c.type).getD "") && truthy c.subject
      && scopeMatches target_scope c.scope then
    some ⟨(c.type).getD "", upperFirst ((c.subject).getD "")⟩
  else none

/-- The filter/map/filter chain of this variant's `getMessages`: the footer
filter `!footer || !footer.startsWith('Internal-commit:')` is applied
unconditionally (there is no `internal` parameter), and the non-null filter
has no `support_types` test (it lives inside `getMessage` here). -/
def keptMessages (project : String) (commits : List Commit) : List Message :=
  (commits.filter
      (fun c => !truthy c.footer || !(jsStartsWith ((c.footer).getD "") "Internal-commit:"))).filterMap
    (getMessage project)

/-- The `getMessages` of the second `src/main.ts` script. -/
def getMessages (project : String) (commits : List Commit) : MsgMap :=
  buildMap (keptMessages project commits)

end ReleaseVariant

/-- The result record of `exec.getExecOutput`: exit code, stdout, stderr. -/
structure ExecOutput where
  exitCode : Int
  stdout : String
  stderr : String
deriving DecidableEq

namespace GitVariant

/-- The `getCommitHash` of the first `src/main.ts` script: run
`git rev-parse ref` (the subprocess is an opaque input `git_rev_parse`),
return trimmed stdout on exit code 0, otherwise throw stderr. -/
def getCommitHash (git_rev_parse : String → ExecOutput) (ref : String) :
    Except String String :=
  let output := git_rev_parse ref
  if output.exitCode = 0 then .ok (jsTrim output.stdout) else .error output.stderr

/-- The `getLatestTaggedCommit` of the first `src/main.ts` script.  The
`git for-each-ref` invocation is an opaque input `for_each_ref`.  On exit
code 0 the trimmed stdout is split on newlines, each line is resolved with
`getCommitHash` (`Promise.all` rejects with the first failure), and the
destructuring `const [current, latest] = ...` yields `undefined` (`none`)
for a missing element.  Note there is no check that two lines exist. -/
def getLatestTaggedCommit (for_each_ref : ExecOutput)
    (git_rev_parse : String → ExecOutput) :
    Except String (Option String × Option String) :=
  if for_each_ref.exitCode = 0 then
    match (jsSplitNl (jsTrim for_each_ref.stdout)).mapM (getCommitHash git_rev_parse) with
    | .error e => .error e
    | .ok hashes => .ok (hashes.get? 0, hashes.get? 1)
  else .error for_each_ref.stderr

end GitVariant

/-- One tag record from the GitHub `listTags` endpoint, flattened:
`{name, commit: {sha}}`. -/
structure Tag where
  name : String
  commit_sha : String
deriving DecidableEq

namespace TagsVariant

/-- The pagination `while` loop of `part_000`'s `getLatestTaggedCommit`,
with the remote endpoint as an opaque input `pages` and an explicit fuel.
Loop state: accumulated `matched_tags` and the next `page` number.  The
loop runs while fewer than two tags matched; each iteration appends the
first two prefix-matching tags of the page, increments the page, and breaks
when the page held fewer than 100 items. -/
def tagsLoop (pages : Nat → List Tag) (pfx : String) :
    Nat → List Tag → Nat → Option (List Tag)
  | 0, _, _ => none
  | fuel + 1, matched_tags, page =>
    if matched_tags.length < 2 then
      let data := pages page
      let matched_tags2 := matched_tags ++ (data.filter (fun t => jsStartsWith t.name pfx)).take 2
      if data.length < 100 then some matched_tags2
      else tagsLoop pages pfx fuel matched_tags2 (page + 1)
    else some matched_tags

/-- The range part of `part_000`'s `getLatestTaggedCommit` after the loop:
throw when fewer than two tags matched, otherwise return the version (first
tag's name with the prefix removed) and the `[from, to]` pair
`[tag_commits[1], tag_commits[0]]`.  The outer `Option` is the loop fuel. -/
def getLatestTaggedCommit (fuel : Nat) (pages : Nat → List Tag) (pfx : String) :
    Option (Except String (String × (String × String))) :=
  match tagsLoop pages pfx fuel [] 1 with
  | none => none
  | some matched_tags =>
    if matched_tags.length < 2 then some (.error "Could not found matched tags")
    else
      match matched_tags with
      | t0 :: t1 :: _ =>
        some (.ok (replaceFirst t0.name pfx "", (t1.commit_sha, t0.commit_sha)))
      | _ => none

end TagsVariant

namespace ReleaseVariant

/-- The pagination `while` loop of `findPreviousRelease` in the second
`src/main.ts` script, with the `listReleases` endpoint as an opaque input
`pages` (already projected to the tag names `data.map(r => r.tag_name)`).
Loop state: `previous_release_tag` and the next `page`.  The loop runs while
no previous tag was found; each iteration takes the first tag name differing
from the current tag and matching the prefix, increments the page, and
breaks when the page held fewer than 100 items. -/
def releasesLoop (pages : Nat → List String) (current_tag pfx : String) :
    Nat → Option String → Nat → Option (Option String)
  | 0, _, _ => none
  | fuel + 1, previous_release_tag, page =>
    match previous_release_tag with
    | some t => some (some t)
    | none =>
      let data := pages page
      let prev2 := data.find? (fun tag_name => tag_name ≠ current_tag && jsStartsWith tag_name pfx)
      if data.length < 100 then some prev2
      else releasesLoop pages current_tag pfx fuel prev2 (page + 1)

/-- The previous-release resolution of `findPreviousRelease`, through the
post-loop check: throw when no previous release tag was found.  (The
subsequent ref/release lookups do not affect the claims and are not
embedded.)  The outer `Option` is the loop fuel. -/
def findPreviousRelease (fuel : Nat) (pages : Nat → List String)
    (current_tag pfx : String) : Option (Except String String) :=
  match releasesLoop pages current_tag pfx fuel none 1 with
  | none => none
  | some none => some (.error "Could not found previous release")
  | some (some t) => some (.ok t)

/-- One commit record of a `compareCommitsWithBasehead` response:
`{sha, commit: {message}}`, flattened. -/
structure CommitRec where
  sha : String
  message : String
deriving DecidableEq

/-- One `compareCommitsWithBasehead` response page. -/
structure CompareData where
  commits : List CommitRec
  html_url : String
deriving DecidableEq

/-- The `while (true)` loop of `getCommits` in the second `src/main.ts`
script, exactly as written in the source: each iteration requests `page`
(the source never increments the `page` variable), appends the page's
commits, and breaks only when the page's commit list is empty
(`data.commits.length === 0`), returning the accumulated commits and the
compare URL. -/
def compareLoop (pages : Nat → CompareData) :
    Nat → List CommitRec → Nat → Option (List CommitRec × String)
  | 0, _, _ => none
  | fuel + 1, commits, page =>
    let data := pages page
    let commits2 := commits ++ data.commits
    if data.commits.length = 0 then some (commits2, data.html_url)
    else compareLoop pages fuel commits2 page

end ReleaseVariant

/-- A value thrown by JavaScript code: either an `Error` instance carrying a
message, or any other value (`throw` accepts arbitrary values). -/
inductive Thrown where
  | errObj (message : String)
  | other (v : String)
deriving DecidableEq

/-- The top-level `try`/`catch` of `run()` (identical in all three scripts):
given the outcome of the body, the handler returns the reported failure
message, `none` meaning the run ends without a failure report.  The catch
clause is `if (error instanceof Error) core.setFailed(...)`: an `Error`'s
message is reported (the second script passes the `Error` object itself to
`core.setFailed`, which renders its message), any other thrown value is
caught and silently discarded. -/
def runHandler (body : Except Thrown Unit) : Option String :=
  match body with
  | .ok _ => none
  | .error (.errObj msg) => some msg
  | .error (.other _) => none

/-- JavaScript `Set` insertion with a seen-accumulator:
`[...new Set(list)]` keeps the first occurrence of each element in
insertion order. -/
def dedupFirstAux (seen : List String) : List String → List String
  | [] => []
  | a :: l => if a ∈ seen then dedupFirstAux seen l else a :: dedupFirstAux (a :: seen) l

/-- JavaScript `[...new Set(list)]`. -/
def dedupFirst (l : List String) : List String :=
  dedupFirstAux [] l

/-- A character class `[A-Z0-9]` of the issue-reference regular
expression. -/
def isUpperDigit (c : Char) : Bool :=
  ('A' ≤ c && c ≤ 'Z') || c.isDigit

/-- The group `([A-Z0-9]+-[0-9]+)` of `/Resolves\s([A-Z0-9]+-[0-9]+)/`,
matched at the head of `cs`: a maximal nonempty run of `[A-Z0-9]`, then a
literal `-`, then a nonempty digit run.  (Backtracking the first run cannot
help: any shorter prefix of the run is followed by a `[A-Z0-9]` character,
never by `-`, so greedy matching is complete.) -/
def matchIssueGroup (cs : List Char) : Option String :=
  let run := cs.takeWhile isUpperDigit
  if run.isEmpty then none
  else
    match cs.drop run.length with
    | '-' :: rest =>
      let ds := rest.takeWhile Char.isDigit
      if ds.isEmpty then none else some (String.mk (run ++ '-' :: ds))
    | _ => none

/-- One attempt of `/Resolves\s([A-Z0-9]+-[0-9]+)/` anchored at the head of
`cs`: the literal `Resolves`, one whitespace character, then the issue
group. -/
def tryResolvesAt (cs : List Char) : Option String :=
  if cs.take 8 = "Resolves".data then
    match cs.drop 8 with
    | [] => none
    | w :: rest => if isSpaceJs w then matchIssueGroup rest else none
  else none

/-- The scan of an unanchored JavaScript regular expression: try every start
position from the left, return the first capture.  This embeds
`body.match(/Resolves\s([A-Z0-9]+-[0-9]+)/)?.[1]`, which yields only the
first match of the body (no `g` flag). -/
def findResolves : List Char → Option String
  | [] => none
  | c :: rest =>
    match tryResolvesAt (c :: rest) with
    | some g => some g
    | none => findResolves rest

/-- The issue-id extraction applied to one pull-request body. -/
def resolvesMatch (body : String) : Option String :=
  findResolves body.data

/-- One Linear workflow state: `{id, name}` and the id of its team
(`await state.team` may resolve to null). -/
structure WorkflowState where
  id : String
  name : String
  team : Option String
deriving DecidableEq

/-- One Linear issue: its identifier and the id of its team (nullable). -/
structure LinearIssue where
  id : String
  team : Option String
deriving DecidableEq

/-- The error message thrown when no `Done` workflow state exists (the
apostrophe is spelled via its code point). -/
def doneErrMsg : String :=
  "Couldn" ++ String.singleton (Char.ofNat 39) ++ "t find \"Done\" state from Linear workspace"

namespace ReleaseVariant

/-- The `done_states` filter inside `getTeamStateIdMap`:
`states.filter(state => state.name === 'Done')`. -/
def doneStatesOf (states : List WorkflowState) : List WorkflowState :=
  states.filter (fun s => s.name == "Done")

/-- The `getTeamStateIdMap` of the second `src/main.ts` script: throw when no
`Done` state exists; otherwise pair each `Done` state's team id with the
state id, dropping states whose team resolved to null, in response order
(`Promise.all` preserves order).  The resulting pair list is the argument of
`new Map(...)`. -/
def getTeamStateIdMap (states : List WorkflowState) :
    Except String (List (String × String)) :=
  let done_states := doneStatesOf states
  if done_states.length = 0 then .error doneErrMsg
  else .ok (done_states.filterMap (fun s => s.team.map (fun tid => (tid, s.id))))

/-- JavaScript `Map` built from a pair list, looked up with `get`: the last
binding of a key wins. -/
def jsMapGet (pairs : List (String × String)) (k : String) : Option String :=
  ((pairs.filter (fun pr => pr.1 == k)).getLast?).map Prod.snd

/-- The body of the first pull request associated with a commit:
`res.data.length > 0 ? res.data[0].body : null`, with the PR list for each
commit sha an opaque input (already projected to the nullable bodies). -/
def firstPrBody (prs : List (Option String)) : Option String :=
  match prs with
  | [] => none
  | b :: _ => b

/-- The `linear_issues` pipeline of `markLinearIssuesAsDone`: the first-PR
body of each commit sha, dropping falsy bodies, extracting the first
`Resolves` capture of each, dropping misses, deduplicated via
`[...new Set(...)]`. -/
def linearIssueIds (prsForSha : String → List (Option String))
    (commit_shas : List String) : List String :=
  dedupFirst
    ((((commit_shas.map (fun sha => firstPrBody (prsForSha sha))).filter truthy).map
        (fun b => b.getD "")).filterMap resolvesMatch)

/-- The `markLinearIssuesAsDone` of the second `src/main.ts` script, with the
GitHub PR listing and the Linear issue fetch as opaque inputs (the embedding
assumes each issue fetch succeeds; the claims concern the state-transition
logic).  The result is the list of issued updates: for each collected issue
id, `update({stateId: team_state_id_map.get(team?.id ?? '')})` is embedded
as the pair of the issue id and the (possibly absent) target state id. -/
def markLinearIssuesAsDone (prsForSha : String → List (Option String))
    (issueOf : String → LinearIssue) (states : List WorkflowState)
    (commit_shas : List String) :
    Except String (List (String × Option String)) :=
  let linear_issues := linearIssueIds prsForSha commit_shas
  match getTeamStateIdMap states with
  | .error e => .error e
  | .ok team_state_id_map =>
    .ok (linear_issues.map
      (fun iid => (iid, jsMapGet team_state_id_map (((issueOf iid).team).getD ""))))

end ReleaseVariant

/-- Unfolding the grouping `reduce` from an arbitrary starting map: the entry
of the result at `t` is the starting entry extended, in order, by the texts
of the folded messages of type `t`. -/
theorem foldl_insertMsg (l : List Message) (m : MsgMap) (t : String) :
    (l.foldl (fun m2 msg => insertMsg m2 msg.type msg.text) m) t =
      (if (l.filter (fun msg => msg.type == t)) = [] then m t
       else some (((m t).getD []) ++ ((l.filter (fun msg => msg.type == t)).map Message.text))) := by
  induction l generalizing m with
  | nil => simp
  | cons msg rest ih =>
    rw [List.foldl_cons, ih, List.filter_cons]
    by_cases hty : msg.type = t
    · subst hty
      have hmt : insertMsg m msg.type msg.text msg.type
          = some (((m msg.type).getD []) ++ [msg.text]) := by
        simp [insertMsg]
      by_cases hr : rest.filter (fun ms => ms.type == msg.type) = []
      · simp [hr, hmt]
      · simp [hr, hmt, List.append_assoc]
    · have hne : (msg.type == t) = false := by simp [hty]
      have hmt : insertMsg m msg.type msg.text t = m t := by
        simp [insertMsg, Ne.symm hty]
      simp [hne, hmt]

/-- The grouping `reduce` of `getMessages` keeps, per type, exactly the texts
of the messages of that type in their original (insertion) order; the key is
absent exactly when no message of that type was folded. -/
theorem buildMap_apply (l : List Message) (t : String) :
    buildMap l t =
      (if (l.filter (fun msg => msg.type == t)) = [] then none
       else some ((l.filter (fun msg => msg.type == t)).map Message.text)) := by
  rw [buildMap, foldl_insertMsg]
  by_cases h : l.filter (fun msg => msg.type == t) = [] <;> simp [h]

/-- A type no folded message carries is absent from the grouped map. -/
theorem buildMap_eq_none (l : List Message) (t : String)
    (h : ∀ msg ∈ l, msg.type ≠ t) : buildMap l t = none := by
  rw [buildMap_apply]
  have : l.filter (fun msg => msg.type == t) = [] := by
    rw [List.filter_eq_nil_iff]
    intro a ha
    simpa using h a ha
  simp [this]

/-- Membership in the `Set`-style deduplication: an element survives iff it
occurs in the list and was not already seen. -/
theorem mem_dedupFirstAux (l : List String) (seen : List String) (x : String) :
    x ∈ dedupFirstAux seen l ↔ x ∈ l ∧ x ∉ seen := by
  induction l generalizing seen with
  | nil => simp [dedupFirstAux]
  | cons a rest ih =>
    by_cases ha : a ∈ seen
    · rw [dedupFirstAux, if_pos ha, ih]
      constructor
      · rintro ⟨hx, hns⟩
        exact ⟨List.mem_cons_of_mem _ hx, hns⟩
      · rintro ⟨hx, hns⟩
        rcases List.mem_cons.mp hx with rfl | hx
        · exact absurd ha hns
        · exact ⟨hx, hns⟩
    · rw [dedupFirstAux, if_neg ha]
      constructor
      · intro hx
        rcases List.mem_cons.mp hx with rfl | hx
        · exact ⟨List.mem_cons_self _ _, ha⟩
        · rcases (ih (a :: seen)).mp hx with ⟨hr, hns⟩
          refine ⟨List.mem_cons_of_mem _ hr, fun hs => hns (List.mem_cons_of_mem _ hs)⟩
      · rintro ⟨hx, hns⟩
        rcases List.mem_cons.mp hx with rfl | hx
        · exact List.mem_cons_self _ _
        · by_cases hxa : x = a
          · subst hxa
            exact List.mem_cons_self _ _
          · exact List.mem_cons_of_mem _
              ((ih (a :: seen)).mpr ⟨hx, by simp [hxa, hns]⟩)

/-- The `Set`-style deduplication preserves membership. -/
theorem mem_dedupFirst (l : List String) (x : String) :
    x ∈ dedupFirst l ↔ x ∈ l := by
  rw [dedupFirst, mem_dedupFirstAux]
  simp

/-- The `Set`-style deduplication produces a duplicate-free list. -/
theorem dedupFirstAux_nodup (l : List String) (seen : List String) :
    (dedupFirstAux seen l).Nodup := by
  induction l generalizing seen with
  | nil => simp [dedupFirstAux]
  | cons a rest ih =>
    by_cases ha : a ∈ seen
    · rw [dedupFirstAux, if_pos ha]
      exact ih seen
    · rw [dedupFirstAux, if_neg ha]
      refine List.Nodup.cons ?_ (ih (a :: seen))
      intro hmem
      exact ((mem_dedupFirstAux _ _ _).mp hmem).2 (List.mem_cons_self _ _)

/-- The collected issue-id list is duplicate-free. -/
theorem dedupFirst_nodup (l : List String) : (dedupFirst l).Nodup :=
  dedupFirstAux_nodup l []

/-- The tag-listing loop of `part_000` exits once it reaches a page with
fewer than 100 items (or two matches earlier): whenever some reachable page
`p` holds fewer than 100 tags and the fuel covers reaching it, the loop
returns a result. -/
theorem tagsLoop_terminates (pages : Nat → List Tag) (pfx : String) :
    ∀ (fuel : Nat) (acc : List Tag) (page p : Nat), page ≤ p → p < page + fuel →
      ((pages p).length < 100) → (TagsVariant.tagsLoop pages pfx fuel acc page).isSome = true := by
  intro fuel
  induction fuel with
  | zero =>
    intro acc page p h1 h2 h3
    omega
  | succ n ih =>
    intro acc page p h1 h2 h3
    rw [TagsVariant.tagsLoop]
    by_cases hacc : acc.length < 2
    · by_cases hlen : (pages page).length < 100
      · simp [hacc, hlen]
      · have hne : page ≠ p := fun h => hlen (h ▸ h3)
        simp only [hacc, if_true, hlen, if_false]
        exact ih _ (page + 1) p (by omega) (by omega) h3
    · simp [hacc]

/-- The release-listing loop of `findPreviousRelease` exits once it reaches
a page with fewer than 100 items (or a match earlier). -/
theorem releasesLoop_terminates (pages : Nat → List String) (cur pfx : String) :
    ∀ (fuel : Nat) (prev : Option String) (page p : Nat), page ≤ p → p < page + fuel →
      ((pages p).length < 100) →
      (ReleaseVariant.releasesLoop pages cur pfx fuel prev page).isSome = true := by
  intro fuel
  induction fuel with
  | zero =>
    intro prev page p h1 h2 h3
    omega
  | succ n ih =>
    intro prev page p h1 h2 h3
    match prev with
    | some t => rfl
    | none =>
      by_cases hlen : (pages page).length < 100
      · simp [ReleaseVariant.releasesLoop, hlen]
      · have hne : page ≠ p := fun h => hlen (h ▸ h3)
        have hstep : ReleaseVariant.releasesLoop pages cur pfx (n + 1) none page
            = ReleaseVariant.releasesLoop pages cur pfx n
                ((pages page).find? (fun tag_name => tag_name ≠ cur && jsStartsWith tag_name pfx))
                (page + 1) := by
          simp [ReleaseVariant.releasesLoop, hlen]
        rw [hstep]
        exact ih _ (page + 1) p (by omega) (by omega) h3

/-- The commit-comparison loop of the second script's `getCommits` never
returns while the requested page is non-empty: the `page` variable is never
incremented and the only exit condition is an empty page, so the same page
is re-requested forever. -/
theorem compareLoop_stuck (pages : Nat → ReleaseVariant.CompareData) (page : Nat)
    (h : (pages page).commits ≠ []) :
    ∀ (fuel : Nat) (acc : List ReleaseVariant.CommitRec),
      ReleaseVariant.compareLoop pages fuel acc page = none := by
  intro fuel
  induction fuel with
  | zero => intro acc; rfl
  | succ n ih =>
    intro acc
    rw [ReleaseVariant.compareLoop]
    have hlen : ¬((pages page).commits.length = 0) := by
      simpa [List.length_eq_zero] using h
    simp only [hlen, if_false]
    exact ih _

/-- C1: the tag-listing loop and the release-listing loop do stop as soon as
a page holds fewer than 100 items, but the commit-comparison loop of the
second script's `getCommits` does not: this theorem shows the two compliant
loops terminate upon reaching such a page, and that on an API whose every
page holds exactly one commit (fewer than 100) the commit-comparison loop
runs out of any amount of fuel — the source never increments `page` and
breaks only on a page with zero commits, so it never stops. -/
theorem claim1_pagination_loops :
    (∀ (pages : Nat → List Tag) (pfx : String) (fuel : Nat) (acc : List Tag) (page p : Nat),
      page ≤ p → p < page + fuel → ((pages p).length < 100) →
      (TagsVariant.tagsLoop pages pfx fuel acc page).isSome = true)
    ∧ (∀ (pages : Nat → List String) (cur pfx : String) (fuel : Nat) (prev : Option String)
        (page p : Nat), page ≤ p → p < page + fuel → ((pages p).length < 100) →
        (ReleaseVariant.releasesLoop pages cur pfx fuel prev page).isSome = true)
    ∧ (∀ (fuel : Nat) (acc : List ReleaseVariant.CommitRec) (page : Nat),
        ReleaseVariant.compareLoop (fun _ => ⟨[⟨"abc1234", "fix: a bug"⟩], "compare-url"⟩)
          fuel acc page = none) :=
  ⟨fun pages pfx fuel acc page p h1 h2 h3 => tagsLoop_terminates pages pfx fuel acc page p h1 h2 h3,
   fun pages cur pfx fuel prev page p h1 h2 h3 =>
     releasesLoop_terminates pages cur pfx fuel prev page p h1 h2 h3,
   fun fuel acc page =>
     compareLoop_stuck _ page (by simp) fuel acc⟩

/-- Witness for C1 at concrete inputs: a tag/release listing whose first page
is empty terminates with fuel 1, and the stuck comparison loop returns no
result with fuel 7. -/
theorem claim1_pagination_loops_witness :
    (TagsVariant.tagsLoop (fun _ => []) "v" 1 [] 1).isSome = true
    ∧ (ReleaseVariant.releasesLoop (fun _ => []) "cur" "v" 1 none 1).isSome = true
    ∧ ReleaseVariant.compareLoop (fun _ => ⟨[⟨"abc1234", "fix: a bug"⟩], "compare-url"⟩)
        7 [] 1 = none :=
  ⟨claim1_pagination_loops.1 (fun _ => []) "v" 1 [] 1 1 (by decide) (by decide) (by decide),
   claim1_pagination_loops.2.1 (fun _ => []) "cur" "v" 1 none 1 1 (by decide) (by decide)
     (by decide),
   claim1_pagination_loops.2.2 7 [] 1⟩

/-- C2 counterexample: a `feat`-typed commit with matching scope whose footer
begins with `Internal-commit:` is discarded by the second script's
`getMessages` even when classifying against the primary configured scope
(its map is empty), whereas the flagged variants retain it at the
primary-scope call (`internal` falsy); the claim's "retains them when
classifying against the primary configured scope" fails for the second
script. -/
theorem claim2_internal_commit_cex :
    ReleaseVariant.getMessages "app"
        [⟨some "feat", some "app", some "add metrics", some "Internal-commit: true"⟩] "feat"
      = none
    ∧ GitVariant.getMessages "app"
        [⟨some "feat", some "app", some "add metrics", some "Internal-commit: true"⟩] false "feat"
      = some ["Add metrics"] := by
  exact ⟨by decide, by decide⟩

/-- C2 amended: a commit whose (truthy) footer begins with
`Internal-commit:` is excluded by `getMessages` in the first script and in
`part_000` exactly when the `internal` flag is set (the dependent-scope
calls), and is treated as if it had no footer when the flag is falsy (the
primary-scope call); the second script's `getMessages` excludes such a
commit unconditionally, for the primary scope as well. -/
theorem claim2_internal_commit_amended (p : String) (c : Commit) (rest : List Commit)
    (hfoot : truthy c.footer = true)
    (hstart : jsStartsWith ((c.footer).getD "") "Internal-commit:" = true) :
    (∀ t, GitVariant.getMessages p (c :: rest) true t = GitVariant.getMessages p rest true t)
    ∧ (∀ t, TagsVariant.getMessages p (c :: rest) true t = TagsVariant.getMessages p rest true t)
    ∧ (∀ t, ReleaseVariant.getMessages p (c :: rest) t = ReleaseVariant.getMessages p rest t)
    ∧ (∀ t, GitVariant.getMessages p (c :: rest) false t
        = GitVariant.getMessages p ({c with footer := none} :: rest) false t) := by
  have hdrop : GitVariant.internalFilter true c = false := by
    simp [GitVariant.internalFilter, hfoot, hstart]
  refine ⟨?_, ?_, ?_, ?_⟩
  · intro t
    simp [GitVariant.getMessages, GitVariant.keptMessages, List.filter_cons, hdrop]
  · intro t
    simp [TagsVariant.getMessages, GitVariant.getMessages, GitVariant.keptMessages,
      List.filter_cons, hdrop]
  · intro t
    simp [ReleaseVariant.getMessages, ReleaseVariant.keptMessages, List.filter_cons,
      hfoot, hstart]
  · intro t
    have hmsg : GitVariant.getMessage p {c with footer := none} = GitVariant.getMessage p c := rfl
    simp only [GitVariant.getMessages, GitVariant.keptMessages, List.filter_cons,
      GitVariant.internalFilter, Bool.not_false, Bool.true_or, if_true]
    rw [List.filterMap_cons, List.filterMap_cons, hmsg]

/-- Witness for C2 at a concrete internal commit. -/
theorem claim2_internal_commit_witness :
    (GitVariant.getMessages "app"
        [⟨some "feat", some "app", some "add metrics", some "Internal-commit: true"⟩] true "feat"
      = GitVariant.getMessages "app" [] true "feat")
    ∧ (ReleaseVariant.getMessages "app"
        [⟨some "feat", some "app", some "add metrics", some "Internal-commit: true"⟩] "feat"
      = ReleaseVariant.getMessages "app" [] "feat") :=
  ⟨(claim2_internal_commit_amended "app"
      ⟨some "feat", some "app", some "add metrics", some "Internal-commit: true"⟩ []
      (by decide) (by decide)).1 "feat",
   (claim2_internal_commit_amended "app"
      ⟨some "feat", some "app", some "add metrics", some "Internal-commit: true"⟩ []
      (by decide) (by decide)).2.2.1 "feat"⟩

/-- C3 counterexample: when `git for-each-ref` reports exactly one matching
tag (one output line) and `git rev-parse` succeeds, the first script's
`getLatestTaggedCommit` does not throw: it returns a commit pair whose
second component is `undefined` (`const [current, latest]` destructuring of
a one-element array).  The claim's "no (from, to) commit pair is returned
when ... fewer than two elements" fails for this variant. -/
theorem claim3_range_resolution_cex :
    GitVariant.getLatestTaggedCommit ⟨0, "refs/tags/v1.2.3", ""⟩ (fun _ => ⟨0, "abc1234", ""⟩)
      = .ok (some "abc1234", none) := by rfl

/-- C3 amended: the two API-based resolvers throw when fewer than two
matching tags/releases exist — `part_000`'s `getLatestTaggedCommit` throws
whenever its loop gathered fewer than two matching tags, and
`findPreviousRelease` throws whenever its loop found no previous matching
release — but the exec-based `getLatestTaggedCommit` of the first script
performs no such check: with exactly one tag line and a successful
`rev-parse` it returns a pair whose second commit is absent. -/
theorem claim3_range_resolution_amended :
    (∀ (fuel : Nat) (pages : Nat → List Tag) (pfx : String) (matched : List Tag),
      TagsVariant.tagsLoop pages pfx fuel [] 1 = some matched → matched.length < 2 →
      TagsVariant.getLatestTaggedCommit fuel pages pfx
        = some (.error "Could not found matched tags"))
    ∧ (∀ (fuel : Nat) (pages : Nat → List String) (cur pfx : String),
        ReleaseVariant.releasesLoop pages cur pfx fuel none 1 = some none →
        ReleaseVariant.findPreviousRelease fuel pages cur pfx
          = some (.error "Could not found previous release"))
    ∧ (∀ (out : ExecOutput) (rp : String → ExecOutput) (line h : String),
        out.exitCode = 0 → jsSplitNl (jsTrim out.stdout) = [line] → rp line = ⟨0, h, ""⟩ →
        GitVariant.getLatestTaggedCommit out rp = .ok (some (jsTrim h), none)) := by
  refine ⟨?_, ?_, ?_⟩
  · intro fuel pages pfx matched hloop hlen
    simp [TagsVariant.getLatestTaggedCommit, hloop, hlen]
  · intro fuel pages cur pfx hloop
    simp [ReleaseVariant.findPreviousRelease, hloop]
  · intro out rp line h hexit hsplit hrp
    simp [GitVariant.getLatestTaggedCommit, hexit, hsplit, List.mapM.loop,
      GitVariant.getCommitHash, hrp]

/-- Witness for C3 at concrete inputs: an empty tag page, an empty release
page, and a one-line `for-each-ref` output. -/
theorem claim3_range_resolution_witness :
    TagsVariant.getLatestTaggedCommit 1 (fun _ => []) "v"
      = some (.error "Could not found matched tags")
    ∧ ReleaseVariant.findPreviousRelease 1 (fun _ => []) "cur" "v"
      = some (.error "Could not found previous release")
    ∧ GitVariant.getLatestTaggedCommit ⟨0, "refs/tags/v9", ""⟩ (fun _ => ⟨0, "def5678", ""⟩)
      = .ok (some (jsTrim "def5678"), none) :=
  ⟨claim3_range_resolution_amended.1 1 (fun _ => []) "v" [] (by rfl) (by decide),
   claim3_range_resolution_amended.2.1 1 (fun _ => []) "cur" "v" (by rfl),
   claim3_range_resolution_amended.2.2 ⟨0, "refs/tags/v9", ""⟩ (fun _ => ⟨0, "def5678", ""⟩)
     "refs/tags/v9" "def5678" (by rfl) (by decide) (by rfl)⟩

/-- C4 counterexample: a thrown value that is not an `Error` instance (for
example a thrown string) is caught by the top-level handler but produces no
failure report — `catch (error) { if (error instanceof Error) ... }` skips
it — so a thrown failure goes unreported, contrary to the claim. -/
theorem claim4_run_handler_cex :
    runHandler (.error (.other "boom")) = none := rfl

/-- C4 amended: the top-level handler never propagates (it is total on every
body outcome); every thrown `Error` is caught and its message is reported as
the run's failure status; a thrown non-`Error` value is caught but silently
discarded without a failure report. -/
theorem claim4_run_handler_amended (msg v : String) :
    runHandler (.error (.errObj msg)) = some msg
    ∧ runHandler (.error (.other v)) = none
    ∧ runHandler (.ok ()) = none :=
  ⟨rfl, rfl, rfl⟩

/-- A message produced by the second script's `getMessage` always carries a
supported type (the membership test sits inside its guard). -/
theorem getMessage_type_supported (ts : String) (c : Commit) (msg : Message)
    (h : ReleaseVariant.getMessage ts c = some msg) :
    support_types.contains msg.type = true := by
  unfold ReleaseVariant.getMessage at h
  split at h
  next hcond =>
    rw [Option.some.injEq] at h
    subst h
    simp only [Bool.and_eq_true] at hcond
    exact hcond.1.1.2
  next => exact absurd h (by simp)

/-- C5 counterexample: a commit with the unrecognized type `chore`, a
subject, and a matching scope makes `getMessage` of the first script (and
`part_000`) return a non-null message — contradicting the claim's "in all
other cases getMessage returns null".  (The commit still yields no
changelog entry: the `support_types` filter inside `getMessages` drops
it.) -/
theorem claim5_getMessage_cex :
    GitVariant.getMessage "app" ⟨some "chore", some "app", some "tidy things", none⟩
      = some ⟨"chore", "Tidy things"⟩
    ∧ GitVariant.getMessage "app" ⟨some "chore", some "app", some "tidy things", none⟩ ≠ none :=
  ⟨by decide, by decide⟩

/-- C5 amended: `getMessage` of the second script returns non-null exactly
when the commit has a truthy type that is in `support_types`, a truthy
subject, and a matching scope; `getMessage` of the first script and of
`part_000` omits the `support_types` test and returns non-null for any
truthy type, the unrecognized types being excluded downstream by the
`getMessages` filter — so in every variant the per-type message map holds
no key outside `support_types`, and no changelog entry results from an
unrecognized type. -/
theorem claim5_getMessage_amended (ts : String) (c : Commit) :
    ((ReleaseVariant.getMessage ts c).isSome
      = (truthy c.type && support_types.contains ((c.type).getD "") && truthy c.subject
         && scopeMatches ts c.scope))
    ∧ ((GitVariant.getMessage ts c).isSome
      = (truthy c.type && truthy c.subject && scopeMatches ts c.scope))
    ∧ (∀ (p : String) (cs : List Commit) (flag : Bool) (t : String), t ∉ support_types →
        GitVariant.getMessages p cs flag t = none ∧ ReleaseVariant.getMessages p cs t = none) := by
  refine ⟨?_, ?_, ?_⟩
  · unfold ReleaseVariant.getMessage
    split
    next h => simp only [Option.isSome_some]; exact h.symm
    next h =>
      rw [Bool.not_eq_true] at h
      simp only [Option.isSome_none]; exact h.symm
  · unfold GitVariant.getMessage
    split
    next h => simp only [Option.isSome_some]; exact h.symm
    next h =>
      rw [Bool.not_eq_true] at h
      simp only [Option.isSome_none]; exact h.symm
  · intro p cs flag t ht
    constructor
    · show buildMap (GitVariant.keptMessages p flag cs) t = none
      refine buildMap_eq_none _ _ (fun msg hmsg => ?_)
      have hsup : support_types.contains msg.type = true :=
        (List.mem_filter.mp hmsg).2
      intro heq
      exact ht (heq ▸ List.elem_iff.mp hsup)
    · show buildMap (ReleaseVariant.keptMessages p cs) t = none
      refine buildMap_eq_none _ _ (fun msg hmsg => ?_)
      obtain ⟨c', _, hc'⟩ := List.mem_filterMap.mp hmsg
      have hsup := getMessage_type_supported p c' msg hc'
      intro hphi
      exact ht (hphi ▸ List.elem_iff.mp hsup)

/-- Witness for C5 at the concrete `chore` commit: its type never reaches
the per-type map of either script. -/
theorem claim5_getMessage_witness :
    GitVariant.getMessages "app" [⟨some "chore", some "app", some "tidy things", none⟩]
        false "chore" = none
    ∧ ReleaseVariant.getMessages "app" [⟨some "chore", some "app", some "tidy things", none⟩]
        "chore" = none :=
  (claim5_getMessage_amended "app"
      ⟨some "chore", some "app", some "tidy things", none⟩).2.2 "app"
    [⟨some "chore", some "app", some "tidy things", none⟩] false "chore" (by decide)

/-- C6 counterexample: a map whose `feat` key holds an empty list — exactly
what the dependent-scope aggregation in `run()` produces for a type with no
entries (`result_messages[type] = (result_messages[type] || []).concat(...)`
creates the key unconditionally) — leaves residue in the rendered string: an
empty array is truthy in JavaScript, so the `!messages_with_type[type]` skip
does not fire and `result += content + '\n\n'` appends a blank paragraph
separator, contradicting "no other residue for that type appears". -/
theorem claim6_getContent_cex :
    getContent (fun t => if t = "feat" then some [] else if t = "fix" then some ["Fix crash"] else none)
      = "\n\n*Bug Fixes*\nFix crash\n\n"
    ∧ getContent (fun t => if t = "feat" then some [] else if t = "fix" then some ["Fix crash"] else none)
      ≠ "*Bug Fixes*\nFix crash\n\n" :=
  ⟨by decide, by decide⟩

/-- C6 amended: a recognized type contributes its header line followed by
one line per entry; a type whose key is absent from the map is omitted
entirely (no header and no residue); but a type whose key maps to an empty
list contributes no header yet leaves a `"\n\n"` separator as residue. -/
theorem claim6_getContent_amended (m : MsgMap) (fl fx : List String) :
    (m "feat" = none → m "fix" = none → getContent m = "")
    ∧ (m "feat" = none → m "fix" = some fx → fx ≠ [] →
        getContent m = "*Bug Fixes*" ++ "\n" ++ String.intercalate "\n" fx ++ "\n\n")
    ∧ (m "feat" = some [] → m "fix" = some fx → fx ≠ [] →
        getContent m = "\n\n" ++ ("*Bug Fixes*" ++ "\n" ++ String.intercalate "\n" fx ++ "\n\n"))
    ∧ (m "feat" = some fl → fl ≠ [] → m "fix" = none →
        getContent m = "*Enhancements*" ++ "\n" ++ String.intercalate "\n" fl ++ "\n\n")
    ∧ (m "feat" = some fl → fl ≠ [] → m "fix" = some [] →
        getContent m
          = ("*Enhancements*" ++ "\n" ++ String.intercalate "\n" fl ++ "\n\n") ++ "\n\n") := by
  refine ⟨?_, ?_, ?_, ?_, ?_⟩
  · intro h1 h2
    simp [getContent, support_types, h1, h2]
  · intro h1 h2 hne
    have hmb : ("*Bug Fixes*" : String) ++ "\n" = "*Bug Fixes*\n" := by decide
    match fx, hne with
    | x :: xs, _ =>
      simp [getContent, support_types, h1, h2, getTypeContent, type_titles, paragraph,
        String.append_assoc]
      rw [← String.append_assoc "*Bug Fixes*" "\n", hmb]
  · intro h1 h2 hne
    have hmb : ("*Bug Fixes*" : String) ++ "\n" = "*Bug Fixes*\n" := by decide
    match fx, hne with
    | x :: xs, _ =>
      simp [getContent, support_types, h1, h2, getTypeContent, type_titles, paragraph,
        String.append_assoc]
      rw [← String.append_assoc "*Bug Fixes*" "\n", hmb]
  · intro h1 hne h2
    have hme : ("*Enhancements*" : String) ++ "\n" = "*Enhancements*\n" := by decide
    match fl, hne with
    | x :: xs, _ =>
      simp [getContent, support_types, h1, h2, getTypeContent, type_titles, paragraph,
        String.append_assoc]
      rw [← String.append_assoc "*Enhancements*" "\n", hme]
  · intro h1 hne h2
    have hme : ("*Enhancements*" : String) ++ "\n" = "*Enhancements*\n" := by decide
    match fl, hne with
    | x :: xs, _ =>
      simp [getContent, support_types, h1, h2, getTypeContent, type_titles, paragraph,
        String.append_assoc]
      rw [← String.append_assoc "*Enhancements*" "\n", hme]

/-- Witness for C6 at a concrete map with a nonempty `feat` list and an
empty `fix` list. -/
theorem claim6_getContent_witness :
    getContent (fun t => if t = "feat" then some ["Add x"] else if t = "fix" then some [] else none)
      = ("*Enhancements*" ++ "\n" ++ String.intercalate "\n" ["Add x"] ++ "\n\n") ++ "\n\n" :=
  (claim6_getContent_amended
      (fun t => if t = "feat" then some ["Add x"] else if t = "fix" then some [] else none)
      ["Add x"] []).2.2.2.2 (by decide) (by decide) (by decide)

/-- C7: `getContent` renders the `*Enhancements*` (feat) paragraph strictly
before the `*Bug Fixes*` (fix) paragraph (shown in the representative case
where both are present and nonempty: the rendered string is the feat
paragraph followed by the fix paragraph), and the grouping `reduce` of
`getMessages` preserves insertion order in every variant: the map's list for
a type is exactly the order-preserving filter of the pipeline's messages of
that type, whose texts appear in the same relative order as the commits they
came from. -/
theorem claim7_order_preserved :
    (∀ (m : MsgMap) (fl fx : List String), m "feat" = some fl → m "fix" = some fx →
      fl ≠ [] → fx ≠ [] →
      getContent m
        = ("*Enhancements*" ++ "\n" ++ String.intercalate "\n" fl ++ "\n\n")
          ++ ("*Bug Fixes*" ++ "\n" ++ String.intercalate "\n" fx ++ "\n\n"))
    ∧ (∀ (p : String) (flag : Bool) (cs : List Commit) (t : String),
        GitVariant.getMessages p cs flag t
          = (if ((GitVariant.keptMessages p flag cs).filter (fun msg => msg.type == t)) = []
             then none
             else some (((GitVariant.keptMessages p flag cs).filter
                (fun msg => msg.type == t)).map Message.text)))
    ∧ (∀ (p : String) (cs : List Commit) (t : String),
        ReleaseVariant.getMessages p cs t
          = (if ((ReleaseVariant.keptMessages p cs).filter (fun msg => msg.type == t)) = []
             then none
             else some (((ReleaseVariant.keptMessages p cs).filter
                (fun msg => msg.type == t)).map Message.text))) := by
  refine ⟨?_, ?_, ?_⟩
  · intro m fl fx hfe hfx hnl hnx
    have hme : ("*Enhancements*" : String) ++ "\n" = "*Enhancements*\n" := by decide
    have hmb : ("*Bug Fixes*" : String) ++ "\n" = "*Bug Fixes*\n" := by decide
    match fl, hnl, fx, hnx with
    | a :: as_, _, b :: bs, _ =>
      simp [getContent, support_types, hfe, hfx, getTypeContent, type_titles, paragraph,
        String.append_assoc]
      rw [← String.append_assoc "*Enhancements*" "\n", hme,
        ← String.append_assoc "*Bug Fixes*" "\n", hmb]
  · intro p flag cs t
    exact buildMap_apply _ t
  · intro p cs t
    exact buildMap_apply _ t

/-- Witness for C7 at a concrete map and a concrete two-commit list. -/
theorem claim7_order_preserved_witness :
    getContent
        (fun t => if t = "feat" then some ["Add x"] else if t = "fix" then some ["Fix y"] else none)
      = ("*Enhancements*" ++ "\n" ++ String.intercalate "\n" ["Add x"] ++ "\n\n")
        ++ ("*Bug Fixes*" ++ "\n" ++ String.intercalate "\n" ["Fix y"] ++ "\n\n")
    ∧ GitVariant.getMessages "app"
        [⟨some "feat", some "app", some "add x", none⟩,
         ⟨some "feat", some "app", some "add y", none⟩] false "feat"
      = (if ((GitVariant.keptMessages "app" false
              [⟨some "feat", some "app", some "add x", none⟩,
               ⟨some "feat", some "app", some "add y", none⟩]).filter
            (fun msg => msg.type == "feat")) = []
         then none
         else some (((GitVariant.keptMessages "app" false
              [⟨some "feat", some "app", some "add x", none⟩,
               ⟨some "feat", some "app", some "add y", none⟩]).filter
            (fun msg => msg.type == "feat")).map Message.text)) :=
  ⟨claim7_order_preserved.1
      (fun t => if t = "feat" then some ["Add x"] else if t = "fix" then some ["Fix y"] else none)
      ["Add x"] ["Fix y"] (by decide) (by decide) (by decide) (by decide),
   claim7_order_preserved.2.1 "app" false
      [⟨some "feat", some "app", some "add x", none⟩,
       ⟨some "feat", some "app", some "add y", none⟩] "feat"⟩

/-- Everything after the first character is untouched by the subject
capitalization. -/
theorem upperFirst_tail (s : String) : (upperFirst s).data.tail = s.data.tail := by
  obtain ⟨data⟩ := s
  cases data <;> rfl

/-- The first character of a nonempty subject is upper-cased in place. -/
theorem upperFirst_head (s : String) (ch : Char) (cs2 : List Char)
    (h : s.data = ch :: cs2) : (upperFirst s).data = ch.toUpper :: cs2 := by
  obtain ⟨data⟩ := s
  simp only at h
  subst h
  rfl

/-- C8: whichever variant's `getMessage` produced a (non-null) message, its
text is the commit's subject with exactly the first character converted to
upper case: the tail of the rendered text equals the tail of the subject,
and a nonempty subject's head becomes its upper-case form. -/
theorem claim8_subject_capitalized (ts : String) (c : Commit) (msg : Message)
    (h : GitVariant.getMessage ts c = some msg ∨ ReleaseVariant.getMessage ts c = some msg) :
    msg.text = upperFirst ((c.subject).getD "")
    ∧ msg.text.data.tail = ((c.subject).getD "").data.tail
    ∧ (∀ (ch : Char) (cs2 : List Char), ((c.subject).getD "").data = ch :: cs2 →
        msg.text.data = ch.toUpper :: cs2) := by
  have htext : msg.text = upperFirst ((c.subject).getD "") := by
    rcases h with h | h
    · unfold GitVariant.getMessage at h
      split at h
      · rw [Option.some.injEq] at h
        subst h
        rfl
      · exact absurd h (by simp)
    · unfold ReleaseVariant.getMessage at h
      split at h
      · rw [Option.some.injEq] at h
        subst h
        rfl
      · exact absurd h (by simp)
  refine ⟨htext, ?_, ?_⟩
  · rw [htext]
    exact upperFirst_tail _
  · intro ch cs2 hdata
    rw [htext]
    exact upperFirst_head _ ch cs2 hdata

/-- Witness for C8 at a concrete `feat` commit with subject
`"add metrics"`. -/
theorem claim8_subject_capitalized_witness :
    (Message.mk "feat" "Add metrics").text
        = upperFirst (((Commit.mk (some "feat") (some "app") (some "add metrics") none).subject).getD "")
    ∧ (Message.mk "feat" "Add metrics").text.data.tail
        = (((Commit.mk (some "feat") (some "app") (some "add metrics") none).subject).getD "").data.tail
    ∧ (∀ (ch : Char) (cs2 : List Char),
        (((Commit.mk (some "feat") (some "app") (some "add metrics") none).subject).getD "").data
          = ch :: cs2 →
        (Message.mk "feat" "Add metrics").text.data = ch.toUpper :: cs2) :=
  claim8_subject_capitalized "app" ⟨some "feat", some "app", some "add metrics", none⟩
    ⟨"feat", "Add metrics"⟩ (Or.inl (by decide))

/-- C9 counterexample: one commit whose first PR body matches
`Resolves AB-1`, a workspace whose only `Done` state belongs to team `T1`,
and an issue `AB-1` belonging to team `T2`: a `Done` state exists, so
nothing throws, yet the matched issue is updated with no target state
(`stateId: undefined`) — it is not transitioned to any `Done` workflow
state, contradicting the claim. -/
theorem claim9_linear_done_cex :
    ReleaseVariant.markLinearIssuesAsDone (fun _ => [some "Resolves AB-1"])
        (fun iid => ⟨iid, some "T2"⟩) [⟨"s1", "Done", some "T1"⟩] ["sha1"]
      = .ok [("AB-1", none)]
    ∧ ReleaseVariant.doneStatesOf [⟨"s1", "Done", some "T1"⟩] ≠ [] :=
  ⟨by rfl, by decide⟩

/-- C9 amended: when no `Done` workflow state exists at all the operation
throws before updating anything; otherwise it issues one update per
collected issue id (the first `Resolves` capture of each first-PR body,
deduplicated), and each update's target state, when present, is a genuine
`Done` state belonging to the issue's own team — but when the issue's team
has no `Done` state (for example the `Done` states all belong to other
teams), the update is issued with no target state id
(`team_state_id_map.get(...)` is `undefined`) instead of transitioning the
issue. -/
theorem claim9_linear_done_amended (prsForSha : String → List (Option String))
    (issueOf : String → LinearIssue) (states : List WorkflowState) (shas : List String) :
    (ReleaseVariant.doneStatesOf states = [] →
      ReleaseVariant.markLinearIssuesAsDone prsForSha issueOf states shas = .error doneErrMsg)
    ∧ (ReleaseVariant.doneStatesOf states ≠ [] →
        ∃ ups, ReleaseVariant.markLinearIssuesAsDone prsForSha issueOf states shas = .ok ups
          ∧ ups.map Prod.fst = ReleaseVariant.linearIssueIds prsForSha shas
          ∧ (∀ iid st, (iid, st) ∈ ups →
              (∀ sid, st = some sid →
                ∃ s ∈ states, s.name = "Done" ∧ s.team = some (((issueOf iid).team).getD "")
                  ∧ s.id = sid)
              ∧ ((∀ s ∈ states, s.name = "Done" → s.team ≠ some (((issueOf iid).team).getD ""))
                  → st = none))) := by
  constructor
  · intro hempty
    have hlen : (ReleaseVariant.doneStatesOf states).length = 0 := by simp [hempty]
    simp [ReleaseVariant.markLinearIssuesAsDone, ReleaseVariant.getTeamStateIdMap, hlen]
  · intro hne
    have hlen : ¬((ReleaseVariant.doneStatesOf states).length = 0) := by
      simpa [List.length_eq_zero] using hne
    set pairs := (ReleaseVariant.doneStatesOf states).filterMap
      (fun s => s.team.map (fun tid => (tid, s.id))) with hpairs
    refine ⟨(ReleaseVariant.linearIssueIds prsForSha shas).map
      (fun iid => (iid, ReleaseVariant.jsMapGet pairs (((issueOf iid).team).getD ""))), ?_, ?_, ?_⟩
    · simp [ReleaseVariant.markLinearIssuesAsDone, ReleaseVariant.getTeamStateIdMap, hlen, hpairs]
    · rw [List.map_map]
      have hcomp : (Prod.fst ∘ fun iid =>
          (iid, ReleaseVariant.jsMapGet pairs (((issueOf iid).team).getD ""))) = id := rfl
      rw [hcomp, List.map_id]
    · intro iid st hmem
      obtain ⟨a, _, heq⟩ := List.mem_map.mp hmem
      rw [Prod.mk.injEq] at heq
      obtain ⟨rfl, hst⟩ := heq
      constructor
      · intro sid hsid
        rw [← hst] at hsid
        obtain ⟨pr, hlast, hsnd⟩ := Option.map_eq_some'.mp hsid
        have hprf : pr ∈ pairs.filter (fun pr2 => pr2.1 == ((issueOf a).team).getD "") :=
          List.mem_of_mem_getLast? hlast
        obtain ⟨hprmem, hprk⟩ := List.mem_filter.mp hprf
        obtain ⟨s, hsmem, hsmap⟩ := List.mem_filterMap.mp hprmem
        obtain ⟨tid, hteam, hpair⟩ := Option.map_eq_some'.mp hsmap
        obtain ⟨hsm, hsname⟩ := List.mem_filter.mp hsmem
        refine ⟨s, hsm, by simpa using hsname, ?_, ?_⟩
        · rw [hteam]
          have : tid = ((issueOf a).team).getD "" := by
            have := hprk
            rw [← hpair] at this
            simpa using this
          rw [this]
        · rw [← hpair] at hsnd
          simpa using hsnd
      · intro hnone
        have hfe : pairs.filter (fun pr2 => pr2.1 == ((issueOf a).team).getD "") = [] := by
          rw [List.filter_eq_nil_iff]
          intro pr hprmem
          obtain ⟨s, hsmem, hsmap⟩ := List.mem_filterMap.mp hprmem
          obtain ⟨tid, hteam, hpair⟩ := Option.map_eq_some'.mp hsmap
          obtain ⟨hsm, hsname⟩ := List.mem_filter.mp hsmem
          simp only [beq_iff_eq]
          intro hk
          rw [← hpair] at hk
          exact hnone s hsm (by simpa using hsname) (by rw [hteam]; exact congrArg some hk)
        rw [← hst, ReleaseVariant.jsMapGet, hfe]
        rfl

/-- Witness for C9 at a concrete workspace whose `Done` state belongs to the
issue's own team. -/
theorem claim9_linear_done_witness :
    ∃ ups,
      ReleaseVariant.markLinearIssuesAsDone (fun _ => [some "Resolves AB-1"])
          (fun iid => ⟨iid, some "T1"⟩) [⟨"s1", "Done", some "T1"⟩] ["sha1"]
        = .ok ups
      ∧ ups.map Prod.fst
        = ReleaseVariant.linearIssueIds (fun _ => [some "Resolves AB-1"]) ["sha1"] := by
  obtain ⟨ups, h1, h2, -⟩ :=
    (claim9_linear_done_amended (fun _ => [some "Resolves AB-1"])
        (fun iid => ⟨iid, some "T1"⟩) [⟨"s1", "Done", some "T1"⟩] ["sha1"]).2 (by decide)
  exact ⟨ups, h1, h2⟩

/-- Membership in the issue-id pipeline before deduplication: an id is
produced exactly when some commit sha's first PR body is truthy and its
first `Resolves` capture is that id. -/
theorem mem_issuePipeline (prsForSha : String → List (Option String)) (shas : List String)
    (x : String) :
    (x ∈ ((((shas.map (fun sha => ReleaseVariant.firstPrBody (prsForSha sha))).filter
        truthy).map (fun b => b.getD "")).filterMap resolvesMatch))
      ↔ ∃ sha ∈ shas, truthy (ReleaseVariant.firstPrBody (prsForSha sha)) = true
          ∧ resolvesMatch ((ReleaseVariant.firstPrBody (prsForSha sha)).getD "") = some x := by
  simp only [List.mem_filterMap, List.mem_map, List.mem_filter]
  constructor
  · rintro ⟨b, ⟨ob, ⟨⟨sha, hsha, rfl⟩, htr⟩, rfl⟩, hres⟩
    exact ⟨sha, hsha, htr, hres⟩
  · rintro ⟨sha, hsha, htr, hres⟩
    exact ⟨_, ⟨_, ⟨⟨sha, hsha, rfl⟩, htr⟩, rfl⟩, hres⟩

/-- C10: the collected issue-id list is duplicate-free — so each issue is
fetched and updated at most once per run (the update list of
`markLinearIssuesAsDone` has pairwise-distinct issue ids) — and duplicating
any commit reference of the input leaves the set of collected issue ids
unchanged: membership in `linearIssueIds` is invariant under inserting a
duplicate sha. -/
theorem claim10_issue_dedup (prsForSha : String → List (Option String)) :
    (∀ shas, (ReleaseVariant.linearIssueIds prsForSha shas).Nodup)
    ∧ (∀ (issueOf : String → LinearIssue) (states : List WorkflowState) (shas : List String)
        (ups : List (String × Option String)),
        ReleaseVariant.markLinearIssuesAsDone prsForSha issueOf states shas = .ok ups →
        (ups.map Prod.fst).Nodup)
    ∧ (∀ (l1 l2 : List String) (s : String), s ∈ l1 ++ l2 →
        ∀ x, x ∈ ReleaseVariant.linearIssueIds prsForSha (l1 ++ s :: l2)
          ↔ x ∈ ReleaseVariant.linearIssueIds prsForSha (l1 ++ l2)) := by
  refine ⟨?_, ?_, ?_⟩
  · intro shas
    exact dedupFirst_nodup _
  · intro issueOf states shas ups h
    unfold ReleaseVariant.markLinearIssuesAsDone at h
    split at h
    · exact absurd h (by simp)
    next pairs2 heq2 =>
      rw [Except.ok.injEq] at h
      subst h
      rw [List.map_map]
      have hcomp : (Prod.fst ∘ fun iid => (iid, ReleaseVariant.jsMapGet pairs2
          (((issueOf iid).team).getD ""))) = id := rfl
      rw [hcomp, List.map_id]
      exact dedupFirst_nodup _
  · intro l1 l2 s hs x
    rw [ReleaseVariant.linearIssueIds, ReleaseVariant.linearIssueIds,
      mem_dedupFirst, mem_dedupFirst, mem_issuePipeline, mem_issuePipeline]
    constructor
    · rintro ⟨sha, hsha, hc⟩
      rcases List.mem_append.mp hsha with h1 | h1
      · exact ⟨sha, List.mem_append.mpr (Or.inl h1), hc⟩
      · rcases List.mem_cons.mp h1 with rfl | h1
        · exact ⟨sha, hs, hc⟩
        · exact ⟨sha, List.mem_append.mpr (Or.inr h1), hc⟩
    · rintro ⟨sha, hsha, hc⟩
      rcases List.mem_append.mp hsha with h1 | h1
      · exact ⟨sha, List.mem_append.mpr (Or.inl h1), hc⟩
      · exact ⟨sha, List.mem_append.mpr (Or.inr (List.mem_cons_of_mem _ h1)), hc⟩

/-- Witness for C10 at concrete inputs: duplicating the sha `"a"` does not
change the collected ids, the collected list is duplicate-free, and a
successful run updates pairwise-distinct issues. -/
theorem claim10_issue_dedup_witness :
    (ReleaseVariant.linearIssueIds (fun _ => [some "Resolves AB-1"]) ["a", "b"]).Nodup
    ∧ (("AB-1" ∈ ReleaseVariant.linearIssueIds (fun _ => [some "Resolves AB-1"]) ["a", "b", "a"])
        ↔ ("AB-1" ∈ ReleaseVariant.linearIssueIds (fun _ => [some "Resolves AB-1"]) ["a", "b"]))
    ∧ ((([("AB-1", some "s1")] : List (String × Option String)).map Prod.fst).Nodup) :=
  ⟨(claim10_issue_dedup (fun _ => [some "Resolves AB-1"])).1 ["a", "b"],
   (claim10_issue_dedup (fun _ => [some "Resolves AB-1"])).2.2 ["a", "b"] [] "a"
     (by decide) "AB-1",
   (claim10_issue_dedup (fun _ => [some "Resolves AB-1"])).2.1 (fun iid => ⟨iid, some "T1"⟩)
     [⟨"s1", "Done", some "T1"⟩] ["a"] [("AB-1", some "s1")] (by rfl)⟩
